import Mathlib

/-!
Verification of the `zirv-config` configuration registry.

The registry (src/config.rs) keeps a process-wide JSON object in a
`OnceLock<Mutex<Map<String, Value>>>`.  We embed it shallowly:

* `Value` mirrors `serde_json::Value` (numbers as `Int`; the claims under
  study do not depend on the float/integer distinction).
* The `Map<String, Value>` is an association list with replace-on-insert,
  matching serde_json's map `insert` (get/insert behaviour).
* The `OnceLock` state is `Option ConfigMap`: `none` = never initialised.
* `serde_json::to_value` is external library code; `register_config` takes
  its result (`Except String Value`) as an argument, and the `.expect`
  panic is modelled by returning `Except.error`.
* Rust's `str::split('.')` is modelled character-by-character by
  `splitDotL` with its documented semantics ("" yields [""], adjacent
  delimiters yield empty segments).
-/

/-- The structured configuration value, mirroring `serde_json::Value`. -/
inductive Value where
  | null : Value
  | bool (b : Bool) : Value
  | num (n : Int) : Value
  | str (s : String) : Value
  | arr (vs : List Value) : Value
  | obj (fields : List (String × Value)) : Value
deriving Repr

/-- The string-keyed map backing the store (`serde_json::Map<String, Value>`). -/
abbrev ConfigMap := List (String × Value)

/-- Lookup in the map, as `Map::get`. -/
def mapGet (k : String) : ConfigMap → Option Value
  | [] => none
  | (k', v) :: rest => if k' = k then some v else mapGet k rest

/-- Insert in the map, as `Map::insert`: replaces any existing entry for `k`. -/
def mapInsert (k : String) (v : Value) : ConfigMap → ConfigMap
  | [] => [(k, v)]
  | (k', v') :: rest =>
      if k' = k then (k, v) :: rest else (k', v') :: mapInsert k v rest

/-- The `OnceLock` cell: `none` when `GLOBAL_CONFIG` was never initialised. -/
abbrev ConfigState := Option ConfigMap

/-- `init_config`: `GLOBAL_CONFIG.get_or_init(|| Mutex::new(Map::new()))`. -/
def init_config (s : ConfigState) : ConfigState :=
  match s with
  | none => some []
  | some m => some m

/-- `register_config`: `get_or_init`, then `serde_json::to_value(config)
    .expect("Serialization failed")` (an `error` result models the panic),
    then `guard.insert(namespace.to_string(), value)`. `ser` is the result
    of the external `serde_json::to_value` call on `config`. -/
def register_config (ns : String) (ser : Except String Value)
    (s : ConfigState) : Except String ConfigState :=
  let m := match s with
    | none => ([] : ConfigMap)
    | some m => m
  match ser with
  | .error e => .error e
  | .ok value => .ok (some (mapInsert ns value m))

/-- `register_config` when serialization succeeds (it then always returns
    normally); the state transition of a successful registration. -/
def registerVal (ns : String) (value : Value) (s : ConfigState) :
    ConfigState :=
  some (mapInsert ns value (match s with | none => [] | some m => m))

/-- `get_config`: a snapshot of the whole store; an empty object when the
    `OnceLock` is unset. -/
def get_config (s : ConfigState) : Value :=
  match s with
  | some m => Value.obj m
  | none => Value.obj []

/-- Rust `str::split('.')` on the character list of the key: `[]` yields
    `[[]]`, each `'.'` starts a new (possibly empty) segment. -/
def splitDotL : List Char → List (List Char)
  | [] => [[]]
  | c :: rest =>
      if c = '.' then [] :: splitDotL rest
      else
        match splitDotL rest with
        | s :: ss => (c :: s) :: ss
        | [] => [[c]]

/-- `key.split('.')` as a list of strings. -/
def splitDot (key : String) : List String :=
  (splitDotL key.data).map (fun cs => String.mk cs)

/-- The loop body of `get_config_by_key`: walk the segments, requiring an
    object at each step and looking the segment up as a key. -/
def resolveSegs : Value → List String → Option Value
  | current, [] => some current
  | Value.obj m, part :: rest =>
      match mapGet part m with
      | some v => resolveSegs v rest
      | none => none
  | _, _ :: _ => none

/-- `get_config_by_key`: start from `get_config()`, walk `key.split('.')`. -/
def get_config_by_key (key : String) (s : ConfigState) : Option Value :=
  resolveSegs (get_config s) (splitDot key)

/-- The `read_config!(key, T)` macro arm: `get_config_by_key`, then
    `serde_json::from_value::<T>`; a conversion error is only printed
    (`eprintln!`) and the arm evaluates to `None`.  `conv` models the
    external `serde_json::from_value::<T>`. -/
def read_config_typed {α : Type} (conv : Value → Except String α)
    (key : String) (s : ConfigState) : Option α :=
  match get_config_by_key key s with
  | some v =>
      match conv v with
      | .ok val => some val
      | .error _ => none
  | none => none

/-- `serde_json::from_value::<u16>`: succeeds exactly on a JSON number in
    `[0, 2^16)`; used as a concrete conversion for examples. -/
def fromValueU16 (v : Value) : Except String Nat :=
  match v with
  | Value.num n =>
      if 0 ≤ n ∧ n < 65536 then .ok n.toNat
      else .error "invalid value: out of range for u16"
  | _ => .error "invalid type: expected u16"

/-- Modelled from the spec: the path-resolution algorithm as §4.1 words it —
    "start at the full snapshot; for each segment in order, require the
    current value to be a mapping and look up the segment as a key; if at
    any step the current value is not a mapping, or the key is absent,
    resolution stops and the result is not found; if all segments resolve,
    the result is the value at the final segment". -/
def specResolve : List String → Value → Option Value
  | [], current => some current
  | seg :: rest, current =>
      match current with
      | Value.obj m =>
          match mapGet seg m with
          | some v => specResolve rest v
          | none => none
      | _ => none

/-- The map held by the cell (empty when the cell is unset); `get_config`
    returns exactly this map as an object. -/
def storeMap (s : ConfigState) : ConfigMap :=
  match s with
  | some m => m
  | none => []

theorem mapGet_mapInsert_self (k : String) (v : Value) (m : ConfigMap) :
    mapGet k (mapInsert k v m) = some v := by
  induction m with
  | nil => simp [mapInsert, mapGet]
  | cons hd tl ih =>
      obtain ⟨k', v'⟩ := hd
      by_cases h : k' = k
      · simp [mapInsert, h, mapGet]
      · simp [mapInsert, h, mapGet, ih]

theorem mapGet_mapInsert_ne (k k' : String) (v : Value) (m : ConfigMap)
    (h : k' ≠ k) : mapGet k (mapInsert k' v m) = mapGet k m := by
  induction m with
  | nil => simp [mapInsert, mapGet, h]
  | cons hd tl ih =>
      obtain ⟨k₀, v₀⟩ := hd
      by_cases h₀ : k₀ = k'
      · subst h₀
        simp [mapInsert, mapGet, h]
      · by_cases h₁ : k₀ = k
        · simp [mapInsert, h₀, mapGet, h₁, Ne.symm h]
        · simp [mapInsert, h₀, mapGet, h₁, ih]

theorem mapInsert_mapInsert_self (k : String) (a b : Value) (m : ConfigMap) :
    mapInsert k b (mapInsert k a m) = mapInsert k b m := by
  induction m with
  | nil => simp [mapInsert]
  | cons hd tl ih =>
      obtain ⟨k₀, v₀⟩ := hd
      by_cases h : k₀ = k
      · simp [mapInsert, h]
      · simp [mapInsert, h, ih]

theorem splitDotL_ne_nil (l : List Char) : splitDotL l ≠ [] := by
  induction l with
  | nil => simp [splitDotL]
  | cons c rest ih =>
      by_cases h : c = '.'
      · simp [splitDotL, h]
      · cases h' : splitDotL rest with
        | nil => exact absurd h' ih
        | cons s ss => simp [splitDotL, h, h']

theorem splitDot_ne_nil (key : String) : splitDot key ≠ [] := by
  simp [splitDot, splitDotL_ne_nil]

theorem splitDotL_append (l l' : List Char) :
    splitDotL (l ++ '.' :: l') = splitDotL l ++ splitDotL l' := by
  induction l with
  | nil => simp [splitDotL]
  | cons c rest ih =>
      by_cases h : c = '.'
      · simp [splitDotL, h, ih]
      · cases h' : splitDotL rest with
        | nil => exact absurd h' (splitDotL_ne_nil rest)
        | cons s ss =>
            have : splitDotL (rest ++ '.' :: l') = (s :: ss) ++ splitDotL l' := by
              rw [ih, h']
            simp [splitDotL, h, h', this]

theorem splitDotL_no_dot (l : List Char) (h : ∀ c ∈ l, c ≠ '.') :
    splitDotL l = [l] := by
  induction l with
  | nil => simp [splitDotL]
  | cons c rest ih =>
      have hc : c ≠ '.' := h c (by simp)
      have hrest : splitDotL rest = [rest] := ih (fun c hc => h c (by simp [hc]))
      simp [splitDotL, hc, hrest]

theorem splitDotL_mem_no_dot (l : List Char) :
    ∀ seg ∈ splitDotL l, ∀ c ∈ seg, c ≠ '.' := by
  induction l with
  | nil =>
      intro seg hseg
      simp [splitDotL] at hseg
      subst hseg
      simp
  | cons c₀ rest ih =>
      intro seg hseg
      by_cases h : c₀ = '.'
      · simp only [splitDotL, if_pos h] at hseg
        rcases List.mem_cons.mp hseg with rfl | hmem
        · simp
        · exact ih seg hmem
      · simp only [splitDotL, if_neg h] at hseg
        cases h' : splitDotL rest with
        | nil => exact absurd h' (splitDotL_ne_nil rest)
        | cons t ts =>
            rw [h'] at hseg
            rcases List.mem_cons.mp hseg with rfl | hmem
            · intro c hc
              rcases List.mem_cons.mp hc with rfl | hmem₂
              · exact h
              · exact ih t (by rw [h']; exact List.mem_cons_self t ts) c hmem₂
            · exact ih seg (by rw [h']; exact List.mem_cons_of_mem t hmem)

theorem splitDot_append (p q : String) :
    splitDot (p ++ "." ++ q) = splitDot p ++ splitDot q := by
  have hdata : (p ++ "." ++ q).data = p.data ++ '.' :: q.data := by
    simp [String.data_append]
  simp [splitDot, hdata, splitDotL_append]

theorem resolveSegs_eq_specResolve (segs : List String) (v : Value) :
    resolveSegs v segs = specResolve segs v := by
  induction segs generalizing v with
  | nil => simp [resolveSegs, specResolve]
  | cons seg rest ih =>
      cases v with
      | obj m =>
          cases h : mapGet seg m with
          | none => simp [resolveSegs, specResolve, h]
          | some w => simp [resolveSegs, specResolve, h, ih]
      | null => simp [resolveSegs, specResolve]
      | bool b => simp [resolveSegs, specResolve]
      | num n => simp [resolveSegs, specResolve]
      | str t => simp [resolveSegs, specResolve]
      | arr vs => simp [resolveSegs, specResolve]

theorem resolveSegs_obj_cons (m : ConfigMap) (seg : String) (rest : List String) :
    resolveSegs (Value.obj m) (seg :: rest) =
      Option.bind (mapGet seg m) (fun v => resolveSegs v rest) := by
  cases h : mapGet seg m <;> simp [resolveSegs, h]

theorem get_config_eq_obj_storeMap (s : ConfigState) :
    get_config s = Value.obj (storeMap s) := by
  cases s <;> rfl

theorem storeMap_registerVal (ns : String) (v : Value) (s : ConfigState) :
    storeMap (registerVal ns v s) = mapInsert ns v (storeMap s) := by
  cases s <;> rfl

/-- N registrations performed one after another (the order the lock serialises
    a set of concurrent `register_config` calls into), each with a
    successfully serialised value. -/
def registerAll (regs : List (String × Value)) (s : ConfigState) : ConfigState :=
  regs.foldl (fun st r => registerVal r.1 r.2 st) s

theorem mapGet_registerAll_of_not_mem (regs : List (String × Value))
    (s : ConfigState) (k : String) (h : ∀ q ∈ regs, q.1 ≠ k) :
    mapGet k (storeMap (registerAll regs s)) = mapGet k (storeMap s) := by
  induction regs generalizing s with
  | nil => simp [registerAll]
  | cons r rs ih =>
      have hr : r.1 ≠ k := h r (by simp)
      have hrs : ∀ q ∈ rs, q.1 ≠ k := fun q hq => h q (by simp [hq])
      calc mapGet k (storeMap (registerAll (r :: rs) s))
          = mapGet k (storeMap (registerAll rs (registerVal r.1 r.2 s))) := rfl
        _ = mapGet k (storeMap (registerVal r.1 r.2 s)) := ih _ hrs
        _ = mapGet k (storeMap s) := by
            rw [storeMap_registerVal]
            exact mapGet_mapInsert_ne k r.1 r.2 _ hr

/-- C1: `get_config_by_key` resolves a path by splitting it on the dot and
    walking the snapshot segment by segment, exactly as the spec words the
    algorithm (`specResolve`): a non-mapping value or an absent key stops the
    walk with `none`; otherwise the value at the final segment is returned.
    In particular, after registering `true` under `"flag"`, reading
    `"flag.sub"` yields `none` (traversal through a scalar fails cleanly). -/
theorem claim_C1 :
    (∀ (s : ConfigState) (key : String),
        get_config_by_key key s = specResolve (splitDot key) (get_config s)) ∧
    (∀ s : ConfigState,
        get_config_by_key "flag.sub" (registerVal "flag" (Value.bool true) s) =
          none) := by
  constructor
  · intro s key
    simp [get_config_by_key, resolveSegs_eq_specResolve]
  · intro s
    have hsplit : splitDot "flag.sub" = ["flag", "sub"] := rfl
    simp [get_config_by_key, hsplit, get_config, registerVal, resolveSegs,
      mapGet_mapInsert_self]

/-- C2: the typed read (`read_config!(key, T)`) returns `none` exactly when
    the raw lookup is `none` or the looked-up value fails to convert; a
    conversion failure is not propagated (the function is total into
    `Option`), so absence and wrong shape are observationally identical.
    Concretely, converting the string at `"server.host"` to u16 is `none`. -/
theorem claim_C2 :
    (∀ (α : Type) (conv : Value → Except String α) (key : String)
        (s : ConfigState),
        read_config_typed conv key s = none ↔
          get_config_by_key key s = none ∨
            ∃ v e, get_config_by_key key s = some v ∧ conv v = Except.error e) ∧
    read_config_typed fromValueU16 "server.host"
        (registerVal "server"
          (Value.obj [("port", Value.num 3000), ("host", Value.str "0.0.0.0")])
          none) = none := by
  constructor
  · intro α conv key s
    unfold read_config_typed
    cases hk : get_config_by_key key s with
    | none => simp
    | some v =>
        cases hc : conv v with
        | ok val => simp [hc]
        | error e =>
            simp only [hc]
            exact iff_of_true trivial (Or.inr ⟨v, e, rfl, hc⟩)
  · rfl

/-- C3 counterexample: for the namespace `"a.b"` (which contains the path
    delimiter), registering twice and then reading the namespace back by path
    does not return the second value: the path is split into `["a", "b"]`
    and the lookup misses the literal key `"a.b"`, so the read is `none`. -/
theorem claim_C3_counterexample :
    get_config_by_key "a.b"
        (registerVal "a.b" (Value.num 2)
          (registerVal "a.b" (Value.num 1) none)) ≠ some (Value.num 2) := by
  intro h
  have hnone : get_config_by_key "a.b"
      (registerVal "a.b" (Value.num 2)
        (registerVal "a.b" (Value.num 1) none)) = none := rfl
  rw [hnone] at h
  exact Option.noConfusion h

/-- C3 (amended): for every namespace, a second registration under the same
    namespace wholly replaces the first — the resulting state is identical,
    unconditionally, to registering only the second value (last writer wins,
    no trace of the first).  Reading the namespace back by path returns
    exactly the second value whenever the namespace contains no `'.'`
    delimiter; for a namespace that does contain `'.'`, the path read splits
    it into segments instead of looking the literal key up, so on the store
    holding only that double registration the read is `none`, not the second
    value. -/
theorem claim_C3 (ns : String) (A B : Value) (s : ConfigState) :
    registerVal ns B (registerVal ns A s) = registerVal ns B s ∧
    ((∀ c ∈ ns.data, c ≠ '.') →
      get_config_by_key ns (registerVal ns B (registerVal ns A s)) = some B) ∧
    ('.' ∈ ns.data →
      get_config_by_key ns (registerVal ns B (registerVal ns A none)) =
        none) := by
  have hins : registerVal ns B (registerVal ns A s) = registerVal ns B s := by
    cases s <;> simp [registerVal, mapInsert_mapInsert_self]
  refine ⟨hins, ?_, ?_⟩
  · intro h
    rw [hins]
    have hsplit : splitDot ns = [ns] := by
      simp [splitDot, splitDotL_no_dot ns.data h]
    simp [get_config_by_key, hsplit, get_config, registerVal, resolveSegs,
      mapGet_mapInsert_self]
  · intro hdot
    have hstore : registerVal ns B (registerVal ns A none) = some [(ns, B)] := by
      simp [registerVal, mapInsert]
    rw [hstore]
    unfold get_config_by_key
    cases hsp : splitDotL ns.data with
    | nil => exact absurd hsp (splitDotL_ne_nil ns.data)
    | cons cs css =>
        have hcs : ∀ c ∈ cs, c ≠ '.' := fun c hc =>
          splitDotL_mem_no_dot ns.data cs
            (by rw [hsp]; exact List.mem_cons_self cs css) c hc
        have hne : ns ≠ String.mk cs := by
          intro he
          have hd : ns.data = cs := by rw [he]
          exact hcs '.' (hd ▸ hdot) rfl
        have hsplit : splitDot ns = String.mk cs :: css.map (fun l => String.mk l) := by
          simp [splitDot, hsp]
        rw [hsplit]
        simp [get_config, resolveSegs, mapGet, hne]

theorem claim_C3_witness :
    (registerVal "ns" (Value.num 2) (registerVal "ns" (Value.num 1) none) =
        registerVal "ns" (Value.num 2) none ∧
     get_config_by_key "ns"
        (registerVal "ns" (Value.num 2) (registerVal "ns" (Value.num 1) none)) =
       some (Value.num 2)) ∧
    get_config_by_key "a.b"
        (registerVal "a.b" (Value.num 2) (registerVal "a.b" (Value.num 1) none)) =
      none :=
  ⟨⟨(claim_C3 "ns" (Value.num 1) (Value.num 2) none).1,
    (claim_C3 "ns" (Value.num 1) (Value.num 2) none).2.1 (by decide)⟩,
   (claim_C3 "a.b" (Value.num 1) (Value.num 2) none).2.2 (by decide)⟩

/-- C4: registering under one namespace leaves every other namespace intact:
    for distinct `a` and `b`, after `register a X` then `register b Y` the
    full snapshot is an object in which `a` still maps to `X` and `b` maps
    to `Y`. -/
theorem claim_C4 (a b : String) (X Y : Value) (s : ConfigState) (h : a ≠ b) :
    get_config (registerVal b Y (registerVal a X s)) =
      Value.obj (mapInsert b Y (mapInsert a X (storeMap s))) ∧
    mapGet a (mapInsert b Y (mapInsert a X (storeMap s))) = some X ∧
    mapGet b (mapInsert b Y (mapInsert a X (storeMap s))) = some Y := by
  refine ⟨?_, ?_, ?_⟩
  · cases s <;> rfl
  · rw [mapGet_mapInsert_ne a b Y _ (Ne.symm h)]
    exact mapGet_mapInsert_self a X _
  · exact mapGet_mapInsert_self b Y _

theorem claim_C4_witness :
    get_config (registerVal "b" (Value.num 2)
        (registerVal "a" (Value.num 1) none)) =
      Value.obj (mapInsert "b" (Value.num 2)
        (mapInsert "a" (Value.num 1) (storeMap none))) ∧
    mapGet "a" (mapInsert "b" (Value.num 2)
        (mapInsert "a" (Value.num 1) (storeMap none))) = some (Value.num 1) ∧
    mapGet "b" (mapInsert "b" (Value.num 2)
        (mapInsert "a" (Value.num 1) (storeMap none))) = some (Value.num 2) :=
  claim_C4 "a" "b" (Value.num 1) (Value.num 2) none (by decide)

/-- C5: `init_config` is idempotent: on an unset cell it establishes the
    empty mapping; on an already-set cell it is a no-op (it neither errors
    nor resets the stored content), so iterating it changes nothing. -/
theorem claim_C5 :
    init_config none = some [] ∧
    (∀ m : ConfigMap, init_config (some m) = some m) ∧
    (∀ s : ConfigState, init_config (init_config s) = init_config s) := by
  refine ⟨rfl, fun m => rfl, fun s => ?_⟩
  cases s <;> rfl

/-- C6: reading a never-initialised store is total and well-defined:
    `get_config` returns the empty object and `get_config_by_key` returns
    `none` for every path. -/
theorem claim_C6 :
    get_config none = Value.obj [] ∧
    ∀ p : String, get_config_by_key p none = none := by
  refine ⟨rfl, fun p => ?_⟩
  unfold get_config_by_key
  cases h : splitDot p with
  | nil => exact absurd h (splitDot_ne_nil p)
  | cons seg rest => simp [get_config, resolveSegs, mapGet]

/-- C7: `register_config` aborts (`expect` panics, modelled as `error`)
    exactly when the serialization of the value fails, and completes
    normally — performing the insertion — whenever serialization succeeds. -/
theorem claim_C7 (ns : String) (s : ConfigState) :
    (∀ e, register_config ns (Except.error e) s = Except.error e) ∧
    (∀ v, register_config ns (Except.ok v) s =
        Except.ok (registerVal ns v s)) :=
  ⟨fun _ => rfl, fun _ => rfl⟩

/-- C8: empty path segments get no special treatment: splitting distributes
    over a delimiter wherever it occurs (so leading, trailing and doubled
    delimiters produce empty segments in place), and the walk looks every
    segment — the empty string included — up literally as a key, succeeding
    exactly when the current mapping has that key and yielding `none`
    otherwise. -/
theorem claim_C8 :
    (∀ (p q : String) (s : ConfigState),
        get_config_by_key (p ++ "." ++ q) s =
          resolveSegs (get_config s) (splitDot p ++ splitDot q)) ∧
    (∀ p : String, splitDot ("." ++ p) = "" :: splitDot p) ∧
    (∀ p : String, splitDot (p ++ ".") = splitDot p ++ [""]) ∧
    (∀ (m : ConfigMap) (seg : String) (rest : List String),
        resolveSegs (Value.obj m) (seg :: rest) =
          Option.bind (mapGet seg m) (fun v => resolveSegs v rest)) ∧
    (∀ m : ConfigMap, resolveSegs (Value.obj m) [""] = mapGet "" m) := by
  refine ⟨?_, ?_, ?_, ?_, ?_⟩
  · intro p q s
    rw [get_config_by_key, splitDot_append]
  · intro p
    have hdata : ("." ++ p).data = '.' :: p.data := by
      simp [String.data_append]
    simp [splitDot, hdata, splitDotL]
  · intro p
    have hdata : (p ++ ".").data = p.data ++ '.' :: [] := by
      simp [String.data_append]
    rw [splitDot, hdata, splitDotL_append]
    simp [splitDot, splitDotL]
  · intro m seg rest
    exact resolveSegs_obj_cons m seg rest
  · intro m
    cases h : mapGet "" m <;> simp [resolveSegs, h]

/-- C9: `register_config` does not validate the namespace: the empty
    namespace is accepted and stored under the key `""`, and reading back the
    empty path (which splits into the single empty segment) returns the
    stored value. -/
theorem claim_C9 (v : Value) (s : ConfigState) :
    register_config "" (Except.ok v) s = Except.ok (registerVal "" v s) ∧
    get_config_by_key "" (registerVal "" v s) = some v := by
  refine ⟨rfl, ?_⟩
  have hsplit : splitDot "" = [""] := rfl
  simp [get_config_by_key, hsplit, get_config, registerVal, resolveSegs,
    mapGet_mapInsert_self]

/-- C10: no registration is lost: the lock totally orders the N concurrent
    registrations before the read, so the execution is some sequential
    interleaving `regs`; for every interleaving with pairwise-distinct
    namespaces, the snapshot read afterwards is an object containing every
    registered namespace with its value. -/
theorem claim_C10 (regs : List (String × Value)) (s : ConfigState)
    (hdist : regs.Pairwise (fun p q => p.1 ≠ q.1)) :
    get_config (registerAll regs s) =
      Value.obj (storeMap (registerAll regs s)) ∧
    ∀ p ∈ regs, mapGet p.1 (storeMap (registerAll regs s)) = some p.2 := by
  refine ⟨get_config_eq_obj_storeMap _, ?_⟩
  induction regs generalizing s with
  | nil => simp
  | cons r rs ih =>
      intro p hp
      rcases List.mem_cons.mp hp with rfl | hp'
      · have hrs : ∀ q ∈ rs, q.1 ≠ p.1 := by
          intro q hq
          exact Ne.symm ((List.pairwise_cons.mp hdist).1 q hq)
        have hstep : registerAll (p :: rs) s =
            registerAll rs (registerVal p.1 p.2 s) := rfl
        rw [hstep, mapGet_registerAll_of_not_mem rs _ p.1 hrs,
          storeMap_registerVal]
        exact mapGet_mapInsert_self _ _ _
      · exact ih (registerVal r.1 r.2 s) (List.pairwise_cons.mp hdist).2 p hp'

theorem claim_C10_witness :
    mapGet "a" (storeMap (registerAll
        [("a", Value.num 1), ("b", Value.num 2)] none)) = some (Value.num 1) ∧
    mapGet "b" (storeMap (registerAll
        [("a", Value.num 1), ("b", Value.num 2)] none)) = some (Value.num 2) :=
  ⟨(claim_C10 [("a", Value.num 1), ("b", Value.num 2)] none
      (by simp [List.pairwise_cons])).2 ("a", Value.num 1) (by simp),
   (claim_C10 [("a", Value.num 1), ("b", Value.num 2)] none
      (by simp [List.pairwise_cons])).2 ("b", Value.num 2) (by simp)⟩
